import Mathlib

/-!
Verification of the Reader feed processor (`src/process-feed.js`).

The script is a batch reconciliation loop over a remote read-it-later
service: it pages through the "feed" partition, classifies each document
by the presence of a Ghostreader summary and the literal marker
`📖 READ`, relocates positively-marked documents to `later`, and records
outcomes in a persisted completion cache.

The embedding below is a shallow model of that script. Strings are
`List Char`; remote pages, API responses and cache-file contents are
passed in explicitly as data; network mutations are reified as an
`Effect` list; the per-document loop body is `processDoc` and the whole
run is `processFeed`.
-/

/-- The fixed verdict marker, `READ_MARKER` in the source. -/
def READ_MARKER : List Char := "📖 READ".toList

/-- A remote document, as read by the script: identifier, the optional
metadata fields the script consults, and an optional timestamp (modelled
in day units, matching the day-granularity cutoff the script computes). -/
structure Document where
  id : Nat
  title : Option (List Char)
  url : Option (List Char)
  summary : Option (List Char)
  notes : Option (List Char)
  category : Option (List Char)
  created_at : Option Int
  updated_at : Option Int
deriving Repr, DecidableEq

/-- `matchHead p s` : the pattern `p` is an initial segment of `s`. -/
def matchHead : List Char → List Char → Bool
  | [], _ => true
  | _ :: _, [] => false
  | a :: p, b :: s => a == b && matchHead p s

/-- `containsSub p s` : the pattern `p` occurs as a contiguous substring
of `s`; this is the semantics of JavaScript `String.includes`. -/
def containsSub (p : List Char) : List Char → Bool
  | [] => matchHead p []
  | c :: t => matchHead p (c :: t) || containsSub p t

/-- `hasReadMarker` from the source: the marker occurs in the summary or
in the notes, absent fields read as the empty string. -/
def hasReadMarker (doc : Document) : Bool :=
  containsSub READ_MARKER (doc.summary.getD []) ||
    containsSub READ_MARKER (doc.notes.getD [])

/-- `hasSummary` from the source: the summary, read as the empty string
when absent, has positive length. -/
def hasSummary (doc : Document) : Bool :=
  decide (0 < (doc.summary.getD []).length)

/-- A completion-cache entry, the value `\x7bpromoted: boolean\x7d`. -/
structure CacheEntry where
  promoted : Bool
deriving Repr, DecidableEq

/-- The completion cache: the `processed` mapping, keyed by document id. -/
def Cache : Type := List (Nat × CacheEntry)

instance : DecidableEq Cache := by
  unfold Cache
  infer_instance

/-- Lookup of a document id in the cache (`cache.processed[docId]`). -/
def findEntry (i : Nat) : Cache → Option CacheEntry
  | [] => none
  | (j, e) :: rest => if i = j then some e else findEntry i rest

/-- Assignment `cache.processed[docId] = e`: replace an existing binding
or append a new one. -/
def setEntry : Cache → Nat → CacheEntry → Cache
  | [], i, e => [(i, e)]
  | (j, x) :: rest, i, e =>
    if i = j then (i, e) :: rest else (j, x) :: setEntry rest i e

/-- What the persisted cache file can hold when the script starts:
absent, unreadable (`JSON.parse` throws), or a parsed cache. -/
inductive CacheFile where
  | missing : CacheFile
  | unreadable : CacheFile
  | parsed : Cache → CacheFile

/-- `loadCache` from the source: with `--no-cache`, a missing file, or a
file `JSON.parse` rejects, the empty state is returned. -/
def loadCache (noCache : Bool) (file : CacheFile) : Cache :=
  if noCache then []
  else
    match file with
    | CacheFile.missing => []
    | CacheFile.unreadable => []
    | CacheFile.parsed c => c

/-- The run configuration derived from the CLI flags the reconciliation
loop consults, plus the current time (day units) used by the age cutoff.
`limit` and `sinceDays` are `none` when the flag is absent; a parsed `0`
is kept as `some 0` because JavaScript treats `0` as falsy. -/
structure Config where
  dryRun : Bool
  noCache : Bool
  limit : Option Nat
  sinceDays : Option Nat
  now : Int
deriving Repr, DecidableEq

/-- Run statistics, the module-level `stats` object. -/
structure Stats where
  total : Nat
  promoted : List (List Char)
  skippedNoRead : List (List Char)
  skippedNoSummary : List (List Char)
  skippedCached : Nat
  skippedTooOld : Nat
  archived : Nat
deriving Repr, DecidableEq

/-- The all-zero statistics object the script starts with. -/
def initStats : Stats :=
  { total := 0, promoted := [], skippedNoRead := [], skippedNoSummary := []
    skippedCached := 0, skippedTooOld := 0, archived := 0 }

/-- A mutating network call issued by the script: the PATCH that sets a
document's `location` field. -/
inductive Effect where
  | updateLocation : Nat → List Char → Effect
deriving Repr, DecidableEq

/-- State threaded through the reconciliation loop: the in-memory cache,
the statistics, and the mutating calls issued so far, in order. -/
structure LoopState where
  cache : Cache
  stats : Stats
  effects : List Effect
deriving DecidableEq

/-- Display title: `doc.title || doc.url || 'ID: ...'`, with JavaScript
falsiness making an empty string fall through. -/
def docTitle (doc : Document) : List Char :=
  if (doc.title.getD []).length ≠ 0 then doc.title.getD []
  else if (doc.url.getD []).length ≠ 0 then doc.url.getD []
  else "ID: ".toList ++ (Nat.repr doc.id).toList

/-- `isWithinDays` from the source: vacuously true when the window is
absent (or `0`, which is falsy); otherwise the document's date — its
`created_at`, falling back to `updated_at` — is compared against
`now - days`, and a document with neither timestamp (an invalid date)
compares false. -/
def isWithinDays (now : Int) (doc : Document) (days : Option Nat) : Bool :=
  match days with
  | none => true
  | some d =>
    if d = 0 then true
    else
      match doc.created_at.orElse (fun _ => doc.updated_at) with
      | none => false
      | some t => decide ((now - (d : Int)) ≤ t)

/-- The guard `sinceDays && !isWithinDays(doc, sinceDays)` at the top of
the loop body. -/
def skipTooOld (cfg : Config) (doc : Document) : Bool :=
  match cfg.sinceDays with
  | none => false
  | some d => (d != 0) && !(isWithinDays cfg.now doc cfg.sinceDays)

/-- One iteration of the `processFeed` loop over a single document:
age gate, cache gate, summary gate, then promotion or no-marker
recording, exactly as in the source. -/
def processDoc (cfg : Config) (s : LoopState) (doc : Document) : LoopState :=
  if skipTooOld cfg doc then
    { s with stats := { s.stats with skippedTooOld := s.stats.skippedTooOld + 1 } }
  else if (findEntry doc.id s.cache).isSome then
    { s with stats := { s.stats with skippedCached := s.stats.skippedCached + 1 } }
  else if !hasSummary doc then
    { s with stats :=
        { s.stats with skippedNoSummary := s.stats.skippedNoSummary ++ [docTitle doc] } }
  else if hasReadMarker doc then
    { cache := setEntry s.cache doc.id { promoted := true }
      stats := { s.stats with promoted := s.stats.promoted ++ [docTitle doc] }
      effects := s.effects ++
        (if cfg.dryRun then [] else [Effect.updateLocation doc.id ("later".toList)]) }
  else
    { cache := setEntry s.cache doc.id { promoted := false }
      stats := { s.stats with skippedNoRead := s.stats.skippedNoRead ++ [docTitle doc] }
      effects := s.effects }

/-- One page of the remote list endpoint as the script reads it: an
optional `results` array and an optional `nextPageCursor`. -/
structure Page where
  results : Option (List Document)
  nextPageCursor : Option (List Char)

/-- The category filter applied to each page: keep entries that are not
highlight or note records. -/
def keepDoc (d : Document) : Bool :=
  d.category != some ("highlight".toList) && d.category != some ("note".toList)

/-- The documents a page contributes: an absent `results` field reads as
the empty array, then the category filter is applied. -/
def pageDocs (p : Page) : List Document :=
  (p.results.getD []).filter keepDoc

/-- The early-exit test `maxDocs && documents.length >= maxDocs`: false
when no bound was given or the bound is the falsy `0`. -/
def stopEarly : Option Nat → Nat → Bool
  | none, _ => false
  | some m, len => (m != 0) && decide (m ≤ len)

/-- The pagination loop of `fetchDocuments`, consuming scripted server
pages in order; returns the accumulated documents and the number of page
requests issued. -/
def fetchGo (maxDocs : Option Nat) : List Document → List Page → List Document × Nat
  | acc, [] => (acc, 0)
  | acc, p :: rest =>
    let acc2 := acc ++ pageDocs p
    if stopEarly maxDocs acc2.length then (acc2, 1)
    else
      match p.nextPageCursor with
      | none => (acc2, 1)
      | some _ => ((fetchGo maxDocs acc2 rest).1, (fetchGo maxDocs acc2 rest).2 + 1)

/-- `fetchDocuments` from the source, over a scripted page sequence. -/
def fetchDocuments (maxDocs : Option Nat) (pages : List Page) : List Document × Nat :=
  fetchGo maxDocs [] pages

/-- The truncation the caller applies: `documents.slice(0, limit)` when
`limit` is truthy. -/
def truncatedDocs (limit : Option Nat) (fetched : List Document) : List Document :=
  match limit with
  | none => fetched
  | some n => if n = 0 then fetched else fetched.take n

/-- Result of a `processFeed` run: the final loop state and the cache
contents written to disk, `none` when no write happened. -/
structure FeedResult where
  state : LoopState
  savedCache : Option Cache

/-- `processFeed` from the source: fetch the feed (passing `limit` as the
early-stop bound), record the pre-truncation count in `stats.total`,
truncate, return early when nothing is left (no cache write), otherwise
run the loop and persist the cache unless dry-run or no-cache. -/
def processFeed (cfg : Config) (c0 : Cache) (pages : List Page) : FeedResult :=
  let fetched := (fetchDocuments cfg.limit pages).1
  let docs := truncatedDocs cfg.limit fetched
  let st0 : LoopState := ⟨c0, { initStats with total := fetched.length }, []⟩
  if docs.isEmpty then ⟨st0, none⟩
  else
    let st := docs.foldl (processDoc cfg) st0
    ⟨st, if cfg.dryRun || cfg.noCache then none else some st.cache⟩

/-- The archive sweep `archiveAllLater`: every fetched document is
relocated to `archive` (skipped in dry-run) and counted. Returns the
mutating calls issued and the final `archived` counter. -/
def archiveAllLater (cfg : Config) : List Document → List Effect × Nat
  | [] => ([], 0)
  | d :: rest =>
    let r := archiveAllLater cfg rest
    ((if cfg.dryRun then [] else [Effect.updateLocation d.id ("archive".toList)]) ++ r.1,
      r.2 + 1)

/-- An HTTP response as `apiRequest` consumes it: status, status text,
and the optional `Retry-After` header (seconds). -/
structure ApiResponse where
  status : Nat
  statusText : List Char
  retryAfter : Option Nat
deriving Repr, DecidableEq

/-- The error `apiRequest` raises on a non-2xx, non-429 response. -/
structure ApiError where
  status : Nat
  statusText : List Char
deriving Repr, DecidableEq

/-- `Response.ok` of the fetch API: status in the range 200–299. -/
def respOk (r : ApiResponse) : Bool :=
  decide (200 ≤ r.status) && decide (r.status < 300)

/-- Trace of one `apiRequest` call against a scripted response sequence:
the requests issued (all carrying the same payload), the waits performed
(seconds), and the outcome — `none` only when the script ran out. -/
structure ApiRun (α : Type) where
  requests : List α
  waits : List Nat
  outcome : Option (Except ApiError ApiResponse)

/-- `apiRequest` from the source, over a scripted response sequence: a
429 reads `Retry-After` (default 60), waits, and retries the identical
request; any other non-2xx raises; a 2xx returns the response. -/
def apiRequestRun {α : Type} (req : α) : List ApiResponse → ApiRun α
  | [] => ⟨[], [], none⟩
  | r :: rest =>
    if r.status = 429 then
      let o := apiRequestRun req rest
      ⟨req :: o.requests, (r.retryAfter.getD 60) :: o.waits, o.outcome⟩
    else if respOk r then ⟨[req], [], some (Except.ok r)⟩
    else ⟨[req], [], some (Except.error ⟨r.status, r.statusText⟩)⟩

/-- Flags as in a plain live run: no dry-run, no no-cache, no limit, no
age window. -/
def sampleCfg : Config := ⟨false, false, none, none, 0⟩

/-- A loop state with an empty cache and zeroed statistics. -/
def sampleState : LoopState := ⟨[], initStats, []⟩

/-- A document whose summary carries the marker. -/
def sampleDocRead : Document :=
  ⟨2, some ("Doc B".toList), none, some ("Great read 📖 READ yes".toList),
    none, none, none, none⟩

/-- A document with a summary but no marker. -/
def sampleDocNoRead : Document :=
  ⟨3, some ("Doc C".toList), none, some ("ok".toList), none, none, none, none⟩

/-- A document with no summary at all. -/
def sampleDocNoSummary : Document :=
  ⟨4, some ("Doc A".toList), none, none, none, none, none, none⟩

/-- A loop state whose cache already holds document 9. -/
def sampleCachedState : LoopState := ⟨[(9, ⟨true⟩)], initStats, []⟩

/-- A marked document whose id 9 is already cached. -/
def sampleDocCached : Document :=
  ⟨9, some ("Doc Z".toList), none, some ("📖 READ".toList), none, none, none, none⟩

/-- Consistency of a scripted page sequence with the cursor protocol:
every page announces a cursor exactly when another page follows. -/
def chainOk : List Page → Bool
  | [] => true
  | [p] => p.nextPageCursor.isNone
  | p :: q :: rest => p.nextPageCursor.isSome && chainOk (q :: rest)

/-- The sum of the five per-document outcome buckets of a run. -/
def bucketSum (st : Stats) : Nat :=
  st.skippedTooOld + st.skippedCached + st.skippedNoSummary.length +
    st.skippedNoRead.length + st.promoted.length

/-- A bare feed document with the given id. -/
def mkFeedDoc (i : Nat) : Document :=
  ⟨i, none, none, none, none, none, none, none⟩

/-- A simulated paginated source of three pages of sizes 10, 10 and 5. -/
def samplePages : List Page :=
  [⟨some ((List.range 10).map mkFeedDoc), some ("c1".toList)⟩,
   ⟨some ((List.range 10).map (fun i => mkFeedDoc (10 + i))), some ("c2".toList)⟩,
   ⟨some ((List.range 5).map (fun i => mkFeedDoc (20 + i))), none⟩]

/-- Flags of a live run capped at 12 documents. -/
def limit12Cfg : Config := ⟨false, false, some 12, none, 0⟩

/-- A plain successful response. -/
def sampleOkResp : ApiResponse := ⟨200, "OK".toList, none⟩

/-- A rate-limit response directing a 5-second wait. -/
def sample429Resp : ApiResponse := ⟨429, "Too Many Requests".toList, some 5⟩

/-! ## Helper lemmas -/

lemma matchHead_iff (p : List Char) : ∀ s : List Char,
    matchHead p s = true ↔ ∃ r, s = p ++ r := by
  induction p with
  | nil => intro s; simp [matchHead]
  | cons a p ih =>
    intro s
    cases s with
    | nil => simp [matchHead]
    | cons b s =>
      simp only [matchHead, Bool.and_eq_true, beq_iff_eq, ih, List.cons_append,
        List.cons.injEq]
      constructor
      · rintro ⟨hab, r, hr⟩
        exact ⟨r, hab.symm, hr⟩
      · rintro ⟨r, hba, hr⟩
        exact ⟨hba.symm, r, hr⟩

lemma containsSub_iff (p : List Char) : ∀ s : List Char,
    containsSub p s = true ↔ ∃ l r, s = l ++ p ++ r := by
  intro s
  induction s with
  | nil =>
    simp only [containsSub, matchHead_iff]
    constructor
    · rintro ⟨r, hr⟩
      exact ⟨[], r, by simpa using hr⟩
    · rintro ⟨l, r, hr⟩
      rcases List.append_eq_nil.mp (List.append_eq_nil.mp hr.symm).1 with ⟨hl, hp⟩
      exact ⟨r, by simp_all⟩
  | cons c t ih =>
    simp only [containsSub, Bool.or_eq_true, matchHead_iff, ih]
    constructor
    · rintro (⟨r, hr⟩ | ⟨l, r, hr⟩)
      · exact ⟨[], r, by simpa using hr⟩
      · exact ⟨c :: l, r, by simp [hr]⟩
    · rintro ⟨l, r, hr⟩
      cases l with
      | nil => exact Or.inl ⟨r, by simpa using hr⟩
      | cons x l =>
        rcases List.cons.injEq .. ▸ hr with ⟨hcx, htl⟩
        exact Or.inr ⟨l, r, by simp_all⟩

/-! ## Claims -/

/-- C3: `hasReadMarker` is true for a document exactly when the fixed
marker `📖 READ` occurs as a literal, case-sensitive substring of its
summary or of its notes (absent fields read as empty), and in
particular a lowercase near-miss and a different-emoji near-miss are
rejected. -/
theorem hasReadMarker_characterisation :
    (∀ doc : Document,
      hasReadMarker doc = true ↔
        (∃ l r, doc.summary.getD [] = l ++ READ_MARKER ++ r) ∨
        (∃ l r, doc.notes.getD [] = l ++ READ_MARKER ++ r)) ∧
    hasReadMarker
      ⟨1, none, none, some ("finished: 📖 read it".toList), none, none, none, none⟩
      = false ∧
    hasReadMarker
      ⟨2, none, none, some ("verdict 📚 READ here".toList), none, none, none, none⟩
      = false := by
  refine ⟨fun doc => ?_, by decide, by decide⟩
  simp [hasReadMarker, Bool.or_eq_true, containsSub_iff]

/-- C8: loading the persisted cache never fails — a missing cache file
and a file `JSON.parse` rejects both load as the empty completion
state, for either setting of the no-cache flag. -/
theorem loadCache_total_recovery :
    ∀ noCacheFlag : Bool,
      loadCache noCacheFlag CacheFile.missing = [] ∧
      loadCache noCacheFlag CacheFile.unreadable = [] := by
  intro nc
  cases nc <;> simp [loadCache]

lemma processDoc_tooOld (cfg : Config) (s : LoopState) (doc : Document)
    (h : skipTooOld cfg doc = true) :
    processDoc cfg s doc =
      { s with stats := { s.stats with skippedTooOld := s.stats.skippedTooOld + 1 } } := by
  simp [processDoc, h]

lemma processDoc_cachedHit (cfg : Config) (s : LoopState) (doc : Document)
    (h1 : skipTooOld cfg doc = false)
    (h2 : (findEntry doc.id s.cache).isSome = true) :
    processDoc cfg s doc =
      { s with stats := { s.stats with skippedCached := s.stats.skippedCached + 1 } } := by
  simp [processDoc, h1, h2]

lemma processDoc_noSummary (cfg : Config) (s : LoopState) (doc : Document)
    (h1 : skipTooOld cfg doc = false)
    (h2 : findEntry doc.id s.cache = none)
    (h3 : hasSummary doc = false) :
    processDoc cfg s doc =
      { s with stats :=
          { s.stats with skippedNoSummary := s.stats.skippedNoSummary ++ [docTitle doc] } } := by
  simp [processDoc, h1, h2, h3]

lemma processDoc_promote (cfg : Config) (s : LoopState) (doc : Document)
    (h1 : skipTooOld cfg doc = false)
    (h2 : findEntry doc.id s.cache = none)
    (h3 : hasSummary doc = true)
    (h4 : hasReadMarker doc = true) :
    processDoc cfg s doc =
      { cache := setEntry s.cache doc.id { promoted := true }
        stats := { s.stats with promoted := s.stats.promoted ++ [docTitle doc] }
        effects := s.effects ++
          (if cfg.dryRun then [] else [Effect.updateLocation doc.id ("later".toList)]) } := by
  simp [processDoc, h1, h2, h3, h4]

lemma processDoc_noMarker (cfg : Config) (s : LoopState) (doc : Document)
    (h1 : skipTooOld cfg doc = false)
    (h2 : findEntry doc.id s.cache = none)
    (h3 : hasSummary doc = true)
    (h4 : hasReadMarker doc = false) :
    processDoc cfg s doc =
      { cache := setEntry s.cache doc.id { promoted := false }
        stats := { s.stats with skippedNoRead := s.stats.skippedNoRead ++ [docTitle doc] }
        effects := s.effects } := by
  simp [processDoc, h1, h2, h3, h4]

lemma findEntry_setEntry_ne (i j : Nat) (e : CacheEntry) (h : i ≠ j) :
    ∀ c : Cache, findEntry i (setEntry c j e) = findEntry i c := by
  intro c
  induction c with
  | nil => simp [setEntry, findEntry, h]
  | cons hd tl ih =>
    obtain ⟨k, x⟩ := hd
    by_cases hjk : j = k
    · subst hjk
      simp [setEntry, findEntry, h]
    · simp only [setEntry, if_neg hjk]
      by_cases hik : i = k
      · subst hik
        simp [findEntry]
      · simp [findEntry, hik, ih]

lemma processDoc_preserves_entry (cfg : Config) (s : LoopState) (doc : Document)
    (i : Nat) (e : CacheEntry) (h : findEntry i s.cache = some e) :
    findEntry i (processDoc cfg s doc).cache = some e := by
  cases h1 : skipTooOld cfg doc
  · cases h2 : findEntry doc.id s.cache with
    | none =>
      have hne : i ≠ doc.id := by
        intro hid
        rw [hid, h2] at h
        exact Option.noConfusion h
      cases h3 : hasSummary doc
      · rw [processDoc_noSummary cfg s doc h1 h2 h3]
        exact h
      · cases h4 : hasReadMarker doc
        · rw [processDoc_noMarker cfg s doc h1 h2 h3 h4]
          simpa [findEntry_setEntry_ne i doc.id _ hne] using h
        · rw [processDoc_promote cfg s doc h1 h2 h3 h4]
          simpa [findEntry_setEntry_ne i doc.id _ hne] using h
    | some x =>
      rw [processDoc_cachedHit cfg s doc h1 (by simp [h2])]
      exact h
  · rw [processDoc_tooOld cfg s doc h1]
    exact h

lemma foldl_preserves_entry (cfg : Config) :
    ∀ (docs : List Document) (s : LoopState) (i : Nat) (e : CacheEntry),
      findEntry i s.cache = some e →
      findEntry i (docs.foldl (processDoc cfg) s).cache = some e := by
  intro docs
  induction docs with
  | nil => intro s i e h; simpa using h
  | cons d rest ih =>
    intro s i e h
    exact ih (processDoc cfg s d) i e (processDoc_preserves_entry cfg s d i e h)

lemma processDoc_cached_frame (cfg : Config) (s : LoopState) (doc : Document)
    (h : (findEntry doc.id s.cache).isSome = true) :
    (processDoc cfg s doc).cache = s.cache ∧
    (processDoc cfg s doc).effects = s.effects := by
  cases h1 : skipTooOld cfg doc
  · rw [processDoc_cachedHit cfg s doc h1 h]
    exact ⟨rfl, rfl⟩
  · rw [processDoc_tooOld cfg s doc h1]
    exact ⟨rfl, rfl⟩

lemma foldl_cached_frame (cfg : Config) :
    ∀ (docs : List Document) (s : LoopState),
      (∀ d ∈ docs, (findEntry d.id s.cache).isSome = true) →
      (docs.foldl (processDoc cfg) s).effects = s.effects ∧
      (docs.foldl (processDoc cfg) s).cache = s.cache := by
  intro docs
  induction docs with
  | nil => intro s _; exact ⟨rfl, rfl⟩
  | cons d rest ih =>
    intro s h
    obtain ⟨hc, he⟩ := processDoc_cached_frame cfg s d (h d (by simp))
    have hrest : ∀ x ∈ rest, (findEntry x.id (processDoc cfg s d).cache).isSome = true := by
      intro x hx
      rw [hc]
      exact h x (by simp [hx])
    obtain ⟨h1, h2⟩ := ih (processDoc cfg s d) hrest
    refine ⟨?_, ?_⟩
    · simpa [he] using h1
    · simpa [hc] using h2


/-- C1: for a document inside the age window, not in the cache, and with
a non-empty summary, the loop promotes it when the marker is present —
exactly one location-update call to `later`, suppressed in dry-run, the
title appended to the promoted list, and a cache entry with
`promoted := true` — and otherwise issues no call, appends the title to
the no-marker list, and writes `promoted := false`. -/
theorem feed_marker_decision (cfg : Config) (s : LoopState) (doc : Document)
    (hage : skipTooOld cfg doc = false)
    (hcache : findEntry doc.id s.cache = none)
    (hsum : hasSummary doc = true) :
    (hasReadMarker doc = true →
      processDoc cfg s doc =
        { cache := setEntry s.cache doc.id { promoted := true }
          stats := { s.stats with promoted := s.stats.promoted ++ [docTitle doc] }
          effects := s.effects ++
            (if cfg.dryRun then []
             else [Effect.updateLocation doc.id ("later".toList)]) }) ∧
    (hasReadMarker doc = false →
      processDoc cfg s doc =
        { cache := setEntry s.cache doc.id { promoted := false }
          stats := { s.stats with skippedNoRead := s.stats.skippedNoRead ++ [docTitle doc] }
          effects := s.effects }) :=
  ⟨fun h4 => processDoc_promote cfg s doc hage hcache hsum h4,
   fun h4 => processDoc_noMarker cfg s doc hage hcache hsum h4⟩

theorem feed_marker_decision_witness :
    processDoc sampleCfg sampleState sampleDocRead =
      { cache := setEntry sampleState.cache sampleDocRead.id { promoted := true }
        stats := { sampleState.stats with
          promoted := sampleState.stats.promoted ++ [docTitle sampleDocRead] }
        effects := sampleState.effects ++
          (if sampleCfg.dryRun then []
           else [Effect.updateLocation sampleDocRead.id ("later".toList)]) } ∧
    processDoc sampleCfg sampleState sampleDocNoRead =
      { cache := setEntry sampleState.cache sampleDocNoRead.id { promoted := false }
        stats := { sampleState.stats with
          skippedNoRead := sampleState.stats.skippedNoRead ++ [docTitle sampleDocNoRead] }
        effects := sampleState.effects } :=
  ⟨(feed_marker_decision sampleCfg sampleState sampleDocRead rfl rfl (by decide)).1
      (by decide),
   (feed_marker_decision sampleCfg sampleState sampleDocNoRead rfl rfl (by decide)).2
      (by decide)⟩

/-- C4: a document lacking a non-empty summary has `hasSummary` false,
and when it reaches the summary gate the loop only records its title in
the skipped-no-summary list — the cache and the issued calls are left
unchanged, so the next run sees the document exactly as this one did. -/
theorem unannotated_retry (cfg : Config) (s : LoopState) (doc : Document)
    (hsum : doc.summary.getD [] = []) :
    hasSummary doc = false ∧
    (skipTooOld cfg doc = false → findEntry doc.id s.cache = none →
      processDoc cfg s doc =
        { s with stats :=
            { s.stats with
              skippedNoSummary := s.stats.skippedNoSummary ++ [docTitle doc] } }) := by
  have hs : hasSummary doc = false := by simp [hasSummary, hsum]
  exact ⟨hs, fun h1 h2 => processDoc_noSummary cfg s doc h1 h2 hs⟩

theorem unannotated_retry_witness :
    hasSummary sampleDocNoSummary = false ∧
    processDoc sampleCfg sampleState sampleDocNoSummary =
      { sampleState with stats :=
          { sampleState.stats with
            skippedNoSummary :=
              sampleState.stats.skippedNoSummary ++ [docTitle sampleDocNoSummary] } } :=
  ⟨(unannotated_retry sampleCfg sampleState sampleDocNoSummary rfl).1,
   (unannotated_retry sampleCfg sampleState sampleDocNoSummary rfl).2 rfl rfl⟩

/-- C2: a cached id is a hard skip — behind the age gate it is counted
as Cached with nothing else touched; with or without the gate it never
changes the cache or issues a call; an entry, once present, survives any
further processing unchanged; and a whole reconciliation run over
documents that are all cached issues zero relocation calls. -/
theorem cached_hard_skip :
    (∀ (cfg : Config) (s : LoopState) (doc : Document),
      skipTooOld cfg doc = false →
      (findEntry doc.id s.cache).isSome = true →
      processDoc cfg s doc =
        { s with stats :=
            { s.stats with skippedCached := s.stats.skippedCached + 1 } }) ∧
    (∀ (cfg : Config) (s : LoopState) (doc : Document),
      (findEntry doc.id s.cache).isSome = true →
      (processDoc cfg s doc).cache = s.cache ∧
      (processDoc cfg s doc).effects = s.effects) ∧
    (∀ (cfg : Config) (docs : List Document) (s : LoopState) (i : Nat) (e : CacheEntry),
      findEntry i s.cache = some e →
      findEntry i (docs.foldl (processDoc cfg) s).cache = some e) ∧
    (∀ (cfg : Config) (c : Cache) (pages : List Page),
      (∀ d ∈ truncatedDocs cfg.limit (fetchDocuments cfg.limit pages).1,
        (findEntry d.id c).isSome = true) →
      (processFeed cfg c pages).state.effects = []) := by
  refine ⟨processDoc_cachedHit, processDoc_cached_frame,
    fun cfg docs s i e h => foldl_preserves_entry cfg docs s i e h, ?_⟩
  intro cfg c pages h
  cases he : (truncatedDocs cfg.limit (fetchDocuments cfg.limit pages).1).isEmpty
  · have hfr := foldl_cached_frame cfg
      (truncatedDocs cfg.limit (fetchDocuments cfg.limit pages).1)
      ⟨c, { initStats with total := (fetchDocuments cfg.limit pages).1.length }, []⟩ h
    simpa [processFeed, he] using hfr.1
  · simp [processFeed, he]

theorem cached_hard_skip_witness :
    processDoc sampleCfg sampleCachedState sampleDocCached =
      { sampleCachedState with stats :=
          { sampleCachedState.stats with
            skippedCached := sampleCachedState.stats.skippedCached + 1 } } :=
  cached_hard_skip.1 sampleCfg sampleCachedState sampleDocCached rfl rfl

lemma findEntry_none_of_not_isSome (c : Cache) (i : Nat)
    (h : (findEntry i c).isSome = false) : findEntry i c = none := by
  cases hfe : findEntry i c
  · rfl
  · rw [hfe] at h
    simp at h

lemma skipTooOld_dryRun_irrel (cfg : Config) (b : Bool) (doc : Document) :
    skipTooOld { cfg with dryRun := b } doc = skipTooOld cfg doc := rfl

lemma processDoc_dry_effects (cfg : Config) (s : LoopState) (doc : Document)
    (h : cfg.dryRun = true) :
    (processDoc cfg s doc).effects = s.effects := by
  cases h1 : skipTooOld cfg doc
  · cases h2 : (findEntry doc.id s.cache).isSome
    · have h2n := findEntry_none_of_not_isSome s.cache doc.id h2
      cases h3 : hasSummary doc
      · rw [processDoc_noSummary cfg s doc h1 h2n h3]
      · cases h4 : hasReadMarker doc
        · rw [processDoc_noMarker cfg s doc h1 h2n h3 h4]
        · rw [processDoc_promote cfg s doc h1 h2n h3 h4]
          simp [h]
    · rw [processDoc_cachedHit cfg s doc h1 h2]
  · rw [processDoc_tooOld cfg s doc h1]

lemma foldl_dry_effects (cfg : Config) (h : cfg.dryRun = true) :
    ∀ (docs : List Document) (s : LoopState),
      (docs.foldl (processDoc cfg) s).effects = s.effects := by
  intro docs
  induction docs with
  | nil => intro s; rfl
  | cons d rest ih =>
    intro s
    rw [List.foldl_cons, ih, processDoc_dry_effects cfg s d h]

lemma processDoc_dryRun_pair (cfg : Config) (b1 b2 : Bool) (c : Cache) (st : Stats)
    (e1 e2 : List Effect) (doc : Document) :
    (processDoc { cfg with dryRun := b1 } ⟨c, st, e1⟩ doc).cache =
      (processDoc { cfg with dryRun := b2 } ⟨c, st, e2⟩ doc).cache ∧
    (processDoc { cfg with dryRun := b1 } ⟨c, st, e1⟩ doc).stats =
      (processDoc { cfg with dryRun := b2 } ⟨c, st, e2⟩ doc).stats := by
  cases h1 : skipTooOld cfg doc
  · cases h2 : (findEntry doc.id c).isSome
    · have h2n : findEntry doc.id c = none := findEntry_none_of_not_isSome c doc.id h2
      cases h3 : hasSummary doc
      · rw [processDoc_noSummary _ _ _ ((skipTooOld_dryRun_irrel cfg b1 doc).trans h1) h2n h3,
          processDoc_noSummary _ _ _ ((skipTooOld_dryRun_irrel cfg b2 doc).trans h1) h2n h3]
        exact ⟨rfl, rfl⟩
      · cases h4 : hasReadMarker doc
        · rw [processDoc_noMarker _ _ _ ((skipTooOld_dryRun_irrel cfg b1 doc).trans h1) h2n h3 h4,
            processDoc_noMarker _ _ _ ((skipTooOld_dryRun_irrel cfg b2 doc).trans h1) h2n h3 h4]
          exact ⟨rfl, rfl⟩
        · rw [processDoc_promote _ _ _ ((skipTooOld_dryRun_irrel cfg b1 doc).trans h1) h2n h3 h4,
            processDoc_promote _ _ _ ((skipTooOld_dryRun_irrel cfg b2 doc).trans h1) h2n h3 h4]
          exact ⟨rfl, rfl⟩
    · rw [processDoc_cachedHit _ _ _ ((skipTooOld_dryRun_irrel cfg b1 doc).trans h1) h2,
        processDoc_cachedHit _ _ _ ((skipTooOld_dryRun_irrel cfg b2 doc).trans h1) h2]
      exact ⟨rfl, rfl⟩
  · rw [processDoc_tooOld _ _ _ ((skipTooOld_dryRun_irrel cfg b1 doc).trans h1),
      processDoc_tooOld _ _ _ ((skipTooOld_dryRun_irrel cfg b2 doc).trans h1)]
    exact ⟨rfl, rfl⟩

lemma foldl_dryRun_pair (cfg : Config) (b1 b2 : Bool) :
    ∀ (docs : List Document) (s1 s2 : LoopState),
      s1.cache = s2.cache → s1.stats = s2.stats →
      (docs.foldl (processDoc { cfg with dryRun := b1 }) s1).cache =
        (docs.foldl (processDoc { cfg with dryRun := b2 }) s2).cache ∧
      (docs.foldl (processDoc { cfg with dryRun := b1 }) s1).stats =
        (docs.foldl (processDoc { cfg with dryRun := b2 }) s2).stats := by
  intro docs
  induction docs with
  | nil => intro s1 s2 hc hs; exact ⟨hc, hs⟩
  | cons d rest ih =>
    intro s1 s2 hc hs
    obtain ⟨c, st, e1⟩ := s1
    obtain ⟨c2, st2, e2⟩ := s2
    obtain rfl : c = c2 := hc
    obtain rfl : st = st2 := hs
    exact ih _ _ (processDoc_dryRun_pair cfg b1 b2 c st e1 e2 d).1
      (processDoc_dryRun_pair cfg b1 b2 c st e1 e2 d).2

lemma archiveAllLater_count (cfg : Config) :
    ∀ docs : List Document, (archiveAllLater cfg docs).2 = docs.length := by
  intro docs
  induction docs with
  | nil => rfl
  | cons d rest ih => simp [archiveAllLater, ih]

lemma archiveAllLater_dry (cfg : Config) (h : cfg.dryRun = true) :
    ∀ docs : List Document, (archiveAllLater cfg docs).1 = [] := by
  intro docs
  induction docs with
  | nil => rfl
  | cons d rest ih => simp [archiveAllLater, h, ih]

/-- C6: with the dry-run flag set, a run issues no mutating network call
in either the feed reconciliation or the archive sweep and never writes
the cache file, while its in-memory cache, its statistics, and the
archive counter are exactly those of the corresponding live run. -/
theorem dry_run_frame (cfg : Config) (c0 : Cache) (pages : List Page)
    (laterDocs : List Document) :
    (processFeed { cfg with dryRun := true } c0 pages).state.effects = [] ∧
    (processFeed { cfg with dryRun := true } c0 pages).savedCache = none ∧
    (archiveAllLater { cfg with dryRun := true } laterDocs).1 = [] ∧
    (processFeed { cfg with dryRun := true } c0 pages).state.cache =
      (processFeed { cfg with dryRun := false } c0 pages).state.cache ∧
    (processFeed { cfg with dryRun := true } c0 pages).state.stats =
      (processFeed { cfg with dryRun := false } c0 pages).state.stats ∧
    (archiveAllLater { cfg with dryRun := true } laterDocs).2 =
      (archiveAllLater { cfg with dryRun := false } laterDocs).2 := by
  refine ⟨?_, ?_, archiveAllLater_dry _ rfl laterDocs, ?_, ?_, ?_⟩
  · cases he : (truncatedDocs cfg.limit (fetchDocuments cfg.limit pages).1).isEmpty
    · simpa [processFeed, he] using
        foldl_dry_effects { cfg with dryRun := true } rfl
          (truncatedDocs cfg.limit (fetchDocuments cfg.limit pages).1)
          ⟨c0, { initStats with total := (fetchDocuments cfg.limit pages).1.length }, []⟩
    · simp [processFeed, he]
  · cases he : (truncatedDocs cfg.limit (fetchDocuments cfg.limit pages).1).isEmpty <;>
      simp [processFeed, he]
  · cases he : (truncatedDocs cfg.limit (fetchDocuments cfg.limit pages).1).isEmpty
    · simpa [processFeed, he] using
        (foldl_dryRun_pair cfg true false
          (truncatedDocs cfg.limit (fetchDocuments cfg.limit pages).1)
          ⟨c0, { initStats with total := (fetchDocuments cfg.limit pages).1.length }, []⟩
          ⟨c0, { initStats with total := (fetchDocuments cfg.limit pages).1.length }, []⟩
          rfl rfl).1
    · simp [processFeed, he]
  · cases he : (truncatedDocs cfg.limit (fetchDocuments cfg.limit pages).1).isEmpty
    · simpa [processFeed, he] using
        (foldl_dryRun_pair cfg true false
          (truncatedDocs cfg.limit (fetchDocuments cfg.limit pages).1)
          ⟨c0, { initStats with total := (fetchDocuments cfg.limit pages).1.length }, []⟩
          ⟨c0, { initStats with total := (fetchDocuments cfg.limit pages).1.length }, []⟩
          rfl rfl).2
    · simp [processFeed, he]
  · rw [archiveAllLater_count _ laterDocs, archiveAllLater_count _ laterDocs]

lemma fetchGo_cons (m : Option Nat) (acc : List Document) (p : Page)
    (rest : List Page) :
    fetchGo m acc (p :: rest) =
      if stopEarly m (acc ++ pageDocs p).length then (acc ++ pageDocs p, 1)
      else
        match p.nextPageCursor with
        | none => (acc ++ pageDocs p, 1)
        | some _ =>
          ((fetchGo m (acc ++ pageDocs p) rest).1,
            (fetchGo m (acc ++ pageDocs p) rest).2 + 1) := rfl

lemma fetchGo_chain : ∀ pages : List Page, chainOk pages = true →
    ∀ acc : List Document,
      (fetchGo none acc pages).1 = acc ++ (pages.map pageDocs).flatten := by
  intro pages
  induction pages with
  | nil => intro h acc; simp [fetchGo]
  | cons p rest ih =>
    intro h acc
    cases rest with
    | nil =>
      have hc : p.nextPageCursor = none := by
        simpa [chainOk, Option.isNone_iff_eq_none] using h
      simp [fetchGo_cons, hc, stopEarly]
    | cons q rest2 =>
      rw [chainOk] at h
      have h1 := Bool.and_eq_true .. |>.mp h
      obtain ⟨cv, hcv⟩ := Option.isSome_iff_exists.mp h1.1
      rw [fetchGo_cons, hcv]
      show (fetchGo none (acc ++ pageDocs p) (q :: rest2)).1 = _
      rw [ih h1.2]
      simp [List.append_assoc]

lemma fetchGo_consumed (m : Option Nat) : ∀ (pages : List Page) (acc : List Document),
    (fetchGo m acc pages).1 =
      acc ++ ((pages.take (fetchGo m acc pages).2).map pageDocs).flatten := by
  intro pages
  induction pages with
  | nil => intro acc; simp [fetchGo]
  | cons p rest ih =>
    intro acc
    rw [fetchGo_cons]
    cases hstop : stopEarly m (acc ++ pageDocs p).length
    · cases hc : p.nextPageCursor with
      | none => simp
      | some cv => simp [ih, List.append_assoc]
    · simp

lemma fetchGo_early_stop (m : Nat) (acc : List Document) (p : Page)
    (rest : List Page) (hm : m ≠ 0) (hlen : m ≤ (acc ++ pageDocs p).length) :
    fetchGo (some m) acc (p :: rest) = (acc ++ pageDocs p, 1) := by
  have hstop : stopEarly (some m) (acc ++ pageDocs p).length = true := by
    simp only [stopEarly, Bool.and_eq_true, bne_iff_ne, decide_eq_true_eq]
    exact ⟨hm, hlen⟩
  rw [fetchGo_cons, hstop]
  simp

lemma fetchGo_length_lt (m W : Nat) (hm : m ≠ 0) :
    ∀ (pages : List Page) (acc : List Document),
      (∀ p ∈ pages, (pageDocs p).length ≤ W) →
      acc.length < m →
      (fetchGo (some m) acc pages).1.length < m + W := by
  intro pages
  induction pages with
  | nil =>
    intro acc hW hacc
    simp [fetchGo]
    omega
  | cons p rest ih =>
    intro acc hW hacc
    have hpW : (pageDocs p).length ≤ W := hW p (by simp)
    rw [fetchGo_cons]
    cases hstop : stopEarly (some m) (acc ++ pageDocs p).length
    · cases hc : p.nextPageCursor with
      | none =>
        simp [List.length_append]
        omega
      | some cv =>
        have hlen : (acc ++ pageDocs p).length < m := by
          simp [stopEarly, hm] at hstop
          simpa [List.length_append] using hstop
        simpa using ih (acc ++ pageDocs p) (fun q hq => hW q (by simp [hq])) hlen
    · simp [List.length_append]
      omega

/-- C5: over a cursor-consistent page sequence with no bound, the
fetcher returns exactly the concatenation of the filtered pages in
server order; in general it returns the concatenation of the pages it
actually requested; once the accumulated count reaches a truthy bound it
issues no further page request; the result can exceed the bound by less
than one page width; and the caller's truncation cuts a truthy limit to
exactly `min limit fetched`. -/
theorem fetch_pagination :
    (∀ pages : List Page, chainOk pages = true →
      (fetchDocuments none pages).1 = (pages.map pageDocs).flatten) ∧
    (∀ (m : Option Nat) (pages : List Page),
      (fetchDocuments m pages).1 =
        ((pages.take (fetchDocuments m pages).2).map pageDocs).flatten) ∧
    (∀ (m : Nat) (acc : List Document) (p : Page) (rest : List Page),
      m ≠ 0 → m ≤ (acc ++ pageDocs p).length →
      fetchGo (some m) acc (p :: rest) = (acc ++ pageDocs p, 1)) ∧
    (∀ (m W : Nat) (pages : List Page), m ≠ 0 →
      (∀ p ∈ pages, (pageDocs p).length ≤ W) →
      (fetchDocuments (some m) pages).1.length < m + W) ∧
    (∀ (m : Nat) (fetched : List Document), m ≠ 0 →
      (truncatedDocs (some m) fetched).length = min m fetched.length) := by
  refine ⟨?_, ?_, fetchGo_early_stop, ?_, ?_⟩
  · intro pages h
    simpa using fetchGo_chain pages h []
  · intro m pages
    simpa using fetchGo_consumed m pages []
  · intro m W pages hm hW
    exact fetchGo_length_lt m W hm pages [] hW (Nat.pos_of_ne_zero hm)
  · intro m fetched hm
    simp [truncatedDocs, hm]

theorem fetch_pagination_witness :
    (fetchDocuments none samplePages).1 = (samplePages.map pageDocs).flatten ∧
    (fetchDocuments (some 12) samplePages).1.length < 12 + 10 ∧
    (truncatedDocs (some 12) (fetchDocuments (some 12) samplePages).1).length =
      min 12 (fetchDocuments (some 12) samplePages).1.length :=
  ⟨fetch_pagination.1 samplePages (by decide),
   fetch_pagination.2.2.2.1 12 10 samplePages (by decide) (by decide),
   fetch_pagination.2.2.2.2 12 (fetchDocuments (some 12) samplePages).1 (by decide)⟩

lemma processDoc_bucket (cfg : Config) (s : LoopState) (doc : Document) :
    bucketSum (processDoc cfg s doc).stats = bucketSum s.stats + 1 := by
  cases h1 : skipTooOld cfg doc
  · cases h2 : (findEntry doc.id s.cache).isSome
    · have h2n := findEntry_none_of_not_isSome s.cache doc.id h2
      cases h3 : hasSummary doc
      · rw [processDoc_noSummary cfg s doc h1 h2n h3]
        simp [bucketSum]
        omega
      · cases h4 : hasReadMarker doc
        · rw [processDoc_noMarker cfg s doc h1 h2n h3 h4]
          simp [bucketSum]
          omega
        · rw [processDoc_promote cfg s doc h1 h2n h3 h4]
          simp [bucketSum]
          omega
    · rw [processDoc_cachedHit cfg s doc h1 h2]
      simp [bucketSum]
      omega
  · rw [processDoc_tooOld cfg s doc h1]
    simp [bucketSum]
    omega

lemma processDoc_total (cfg : Config) (s : LoopState) (doc : Document) :
    (processDoc cfg s doc).stats.total = s.stats.total := by
  cases h1 : skipTooOld cfg doc
  · cases h2 : (findEntry doc.id s.cache).isSome
    · have h2n := findEntry_none_of_not_isSome s.cache doc.id h2
      cases h3 : hasSummary doc
      · rw [processDoc_noSummary cfg s doc h1 h2n h3]
      · cases h4 : hasReadMarker doc
        · rw [processDoc_noMarker cfg s doc h1 h2n h3 h4]
        · rw [processDoc_promote cfg s doc h1 h2n h3 h4]
    · rw [processDoc_cachedHit cfg s doc h1 h2]
  · rw [processDoc_tooOld cfg s doc h1]

lemma foldl_bucket (cfg : Config) : ∀ (docs : List Document) (s : LoopState),
    bucketSum (docs.foldl (processDoc cfg) s).stats = bucketSum s.stats + docs.length := by
  intro docs
  induction docs with
  | nil => intro s; simp
  | cons d rest ih =>
    intro s
    rw [List.foldl_cons, ih, processDoc_bucket]
    simp
    omega

lemma foldl_total (cfg : Config) : ∀ (docs : List Document) (s : LoopState),
    (docs.foldl (processDoc cfg) s).stats.total = s.stats.total := by
  intro docs
  induction docs with
  | nil => intro s; rfl
  | cons d rest ih =>
    intro s
    rw [List.foldl_cons, ih, processDoc_total]

/-- C9: every iterated document lands in exactly one outcome bucket, so
the buckets sum to the truncated document count, while `stats.total`
records the pre-truncation fetched count; with a truthy limit the
reported total exceeds the bucket sum by less than one page width, and
there are runs where the excess is strict. -/
theorem stats_accounting :
    (∀ (cfg : Config) (c0 : Cache) (pages : List Page),
      bucketSum (processFeed cfg c0 pages).state.stats =
        (truncatedDocs cfg.limit (fetchDocuments cfg.limit pages).1).length ∧
      (processFeed cfg c0 pages).state.stats.total =
        (fetchDocuments cfg.limit pages).1.length) ∧
    (∀ (cfg : Config) (c0 : Cache) (pages : List Page) (m W : Nat),
      cfg.limit = some m → m ≠ 0 →
      (∀ p ∈ pages, (pageDocs p).length ≤ W) →
      (processFeed cfg c0 pages).state.stats.total ≤
        bucketSum (processFeed cfg c0 pages).state.stats + W) ∧
    (∃ (cfg : Config) (c0 : Cache) (pages : List Page),
      bucketSum (processFeed cfg c0 pages).state.stats <
        (processFeed cfg c0 pages).state.stats.total) := by
  have hmain : ∀ (cfg : Config) (c0 : Cache) (pages : List Page),
      bucketSum (processFeed cfg c0 pages).state.stats =
        (truncatedDocs cfg.limit (fetchDocuments cfg.limit pages).1).length ∧
      (processFeed cfg c0 pages).state.stats.total =
        (fetchDocuments cfg.limit pages).1.length := by
    intro cfg c0 pages
    cases he : (truncatedDocs cfg.limit (fetchDocuments cfg.limit pages).1).isEmpty
    · constructor
      · have hfold := foldl_bucket cfg
          (truncatedDocs cfg.limit (fetchDocuments cfg.limit pages).1)
          ⟨c0, { initStats with total := (fetchDocuments cfg.limit pages).1.length }, []⟩
        simpa [processFeed, he, bucketSum, initStats] using hfold
      · have hfold := foldl_total cfg
          (truncatedDocs cfg.limit (fetchDocuments cfg.limit pages).1)
          ⟨c0, { initStats with total := (fetchDocuments cfg.limit pages).1.length }, []⟩
        simpa [processFeed, he] using hfold
    · have hnil := List.isEmpty_iff.mp he
      constructor
      · simp [processFeed, he, hnil, bucketSum, initStats]
      · simp [processFeed, he]
  refine ⟨hmain, ?_, ?_⟩
  · intro cfg c0 pages m W hlim hm hW
    obtain ⟨hb, ht⟩ := hmain cfg c0 pages
    have hlt : (fetchDocuments (some m) pages).1.length < m + W :=
      fetchGo_length_lt m W hm pages [] hW (Nat.pos_of_ne_zero hm)
    have htr : (truncatedDocs (some m) (fetchDocuments (some m) pages).1).length =
        min m (fetchDocuments (some m) pages).1.length := by
      simp [truncatedDocs, hm]
    rw [hlim] at hb ht
    rw [hb, ht, htr]
    rcases Nat.le_total m (fetchDocuments (some m) pages).1.length with hle | hle
    · rw [Nat.min_eq_left hle]
      omega
    · rw [Nat.min_eq_right hle]
      omega
  · exact ⟨⟨false, false, some 1, none, 0⟩, [],
      [⟨some [mkFeedDoc 1, mkFeedDoc 2], none⟩], by decide⟩

theorem stats_accounting_witness :
    (processFeed limit12Cfg [] samplePages).state.stats.total ≤
      bucketSum (processFeed limit12Cfg [] samplePages).state.stats + 10 :=
  stats_accounting.2.1 limit12Cfg [] samplePages 12 10 rfl (by decide) (by decide)

lemma apiRequestRun_identical {α : Type} (req : α) :
    ∀ (script : List ApiResponse) (q : α),
      q ∈ (apiRequestRun req script).requests → q = req := by
  intro script
  induction script with
  | nil =>
    intro q hq
    simp [apiRequestRun] at hq
  | cons r rest ih =>
    intro q hq
    by_cases h1 : r.status = 429
    · simp only [apiRequestRun, if_pos h1, List.mem_cons] at hq
      rcases hq with hq | hq
      · exact hq
      · exact ih q hq
    · by_cases h2 : respOk r = true
      · simp [apiRequestRun, h1, h2] at hq
        exact hq
      · simp [apiRequestRun, h1, h2] at hq
        exact hq

lemma apiRequestRun_retry_seq {α : Type} (req : α) (txt : List Char)
    (ra : Option Nat) (rOk : ApiResponse) (hok : respOk rOk = true) :
    ∀ n : Nat,
      apiRequestRun req (List.replicate n ⟨429, txt, ra⟩ ++ [rOk]) =
        ⟨List.replicate (n + 1) req, List.replicate n (ra.getD 60),
          some (Except.ok rOk)⟩ := by
  have h429 : rOk.status ≠ 429 := by
    intro h
    simp [respOk, h] at hok
  intro n
  induction n with
  | zero => simp [apiRequestRun, h429, hok]
  | succ k ih =>
    rw [List.replicate_succ, List.cons_append]
    simp only [apiRequestRun, if_pos rfl, ih]
    simp [List.replicate_succ]

lemma apiRequestRun_error {α : Type} (req : α) (r : ApiResponse)
    (rest : List ApiResponse) (h1 : r.status ≠ 429) (h2 : respOk r = false) :
    apiRequestRun req (r :: rest) =
      ⟨[req], [], some (Except.error ⟨r.status, r.statusText⟩)⟩ := by
  simp [apiRequestRun, h1, h2]

/-- C7: a 429 response makes the client wait for the `Retry-After`
duration (60 seconds when the header is absent) and retry the identical
request, for any number of consecutive 429s (no retry cap), finally
returning the first successful response; every request in a trace is the
original one; any other non-2xx response produces the error carrying the
status and status text, with no further request. -/
theorem rate_limit_retry :
    (∀ (α : Type) (req : α) (script : List ApiResponse) (q : α),
      q ∈ (apiRequestRun req script).requests → q = req) ∧
    (∀ (α : Type) (req : α) (n : Nat) (txt : List Char) (ra : Option Nat)
        (rOk : ApiResponse),
      respOk rOk = true →
      apiRequestRun req (List.replicate n ⟨429, txt, ra⟩ ++ [rOk]) =
        ⟨List.replicate (n + 1) req, List.replicate n (ra.getD 60),
          some (Except.ok rOk)⟩) ∧
    (∀ (α : Type) (req : α) (r : ApiResponse) (rest : List ApiResponse),
      r.status ≠ 429 → respOk r = false →
      apiRequestRun req (r :: rest) =
        ⟨[req], [], some (Except.error ⟨r.status, r.statusText⟩)⟩) :=
  ⟨fun _ => apiRequestRun_identical,
   fun _ req n txt ra rOk hok => apiRequestRun_retry_seq req txt ra rOk hok n,
   fun _ => apiRequestRun_error⟩

theorem rate_limit_retry_witness :
    apiRequestRun (0 : Nat)
        (List.replicate 1 ⟨429, "Too Many Requests".toList, some 5⟩ ++ [sampleOkResp]) =
      ⟨List.replicate 2 (0 : Nat), List.replicate 1 ((some 5).getD 60),
        some (Except.ok sampleOkResp)⟩ :=
  rate_limit_retry.2.1 Nat 0 1 ("Too Many Requests".toList) (some 5) sampleOkResp
    (by decide)

/-- C10: a page whose `results` field is absent contributes zero
documents and raises nothing — when it also carries no cursor the fetch
returns exactly what was accumulated so far, and when it carries a
cursor (and the early-exit bound is not yet met) the loop simply
continues with the remaining pages. -/
theorem null_results_page (m : Option Nat) (acc : List Document) (p : Page)
    (rest : List Page) (h : p.results = none) :
    (p.nextPageCursor = none → fetchGo m acc (p :: rest) = (acc, 1)) ∧
    (∀ c, p.nextPageCursor = some c → stopEarly m acc.length = false →
      fetchGo m acc (p :: rest) =
        ((fetchGo m acc rest).1, (fetchGo m acc rest).2 + 1)) := by
  have hpd : pageDocs p = [] := by simp [pageDocs, h]
  constructor
  · intro hc
    rw [fetchGo_cons]
    simp [hpd, hc]
  · intro c hc hstop
    rw [fetchGo_cons]
    simp [hpd, hc, hstop]

theorem null_results_page_witness :
    fetchGo none [] [(⟨none, none⟩ : Page)] = ([], 1) :=
  (null_results_page none [] ⟨none, none⟩ [] rfl).1 rfl
